import Mathlib

/-!
Shallow embedding of `src/binary_heap.py` (class `BinaryHeap`).

The Python program stores values of the dynamic categories int, float,
complex and str in one list (`COMPARABLE_TYPES = (int, float, complex, str)`).
We model a Python value as a tagged union `PyVal`; float values are modelled
by exact rationals (no claim exercises float rounding), and a complex value
by its rational real and imaginary parts.

Python raises exceptions; a raised exception aborts the call but the object
keeps any mutation already performed.  Every stateful method is therefore
modelled as a function returning `Except PyErr result × BinaryHeap`: the
second component is the heap state when the call returned or raised.

Order comparisons in Python raise `TypeError` on complex operands and on
mixed string/number operands; equality (`==`) never raises, identifies
numbers with equal value across int/float/complex, and is `False` between a
string and a number.  `pyLt`, `pyGt`, `pyLe`, `pyGe` and `pyEq` model this.
-/

inductive PyType where
  | tint
  | tfloat
  | tcomplex
  | tstr
deriving DecidableEq

inductive PyVal where
  | vint (n : Int)
  | vfloat (q : ℚ)
  | vcomplex (re im : ℚ)
  | vstr (s : String)
deriving DecidableEq

/-- The dynamic category tag of a value (Python `type(elem)`). -/
def pyType : PyVal → PyType
  | .vint _ => .tint
  | .vfloat _ => .tfloat
  | .vcomplex _ _ => .tcomplex
  | .vstr _ => .tstr

/-- `COMPARABLE_TYPES = (int, float, complex, str)` from the source. -/
def COMPARABLE_TYPES : List PyType := [.tint, .tfloat, .tcomplex, .tstr]

/-- `isinstance(elem, COMPARABLE_TYPES)` for the values we model. -/
def isinstanceComparable (v : PyVal) : Bool :=
  COMPARABLE_TYPES.contains (pyType v)

inductive PyErr where
  | typeError
  | indexError
deriving DecidableEq

/-- Default value used to discharge list reads that the source guards. -/
def dflt : PyVal := .vint 0

/-- The real-number view of a value, defined exactly on the values that
Python orders with `<` against numbers: int and float. -/
def toRatNum : PyVal → Option ℚ
  | .vint n => some (n : ℚ)
  | .vfloat q => some q
  | _ => none

/-- The complex-number view of a value (every numeric value, used by `==`). -/
def toComplexNum : PyVal → Option (ℚ × ℚ)
  | .vint n => some ((n : ℚ), 0)
  | .vfloat q => some (q, 0)
  | .vcomplex re im => some (re, im)
  | .vstr _ => none

/-- Python `a < b`: total on number/number (complex excluded) and on
str/str; raises `TypeError` otherwise (complex defines no order). -/
def pyLt (a b : PyVal) : Except PyErr Bool :=
  match toRatNum a, toRatNum b with
  | some x, some y => .ok (decide (x < y))
  | _, _ =>
    match a, b with
    | .vstr s, .vstr t => .ok (decide (s < t))
    | _, _ => .error .typeError

/-- Python `a > b`. -/
def pyGt (a b : PyVal) : Except PyErr Bool := pyLt b a

/-- Python `a <= b` (the underlying orders are total). -/
def pyLe (a b : PyVal) : Except PyErr Bool := (pyLt b a).map (! ·)

/-- Python `a >= b`. -/
def pyGe (a b : PyVal) : Except PyErr Bool := (pyLt a b).map (! ·)

/-- Python `a == b`: numeric cross-category equality, string equality,
`False` between a string and a number; never raises. -/
def pyEq (a b : PyVal) : Bool :=
  match a, b with
  | .vstr s, .vstr t => decide (s = t)
  | _, _ =>
    match toComplexNum a, toComplexNum b with
    | some x, some y => decide (x = y)
    | _, _ => false

/-- The heap object: fields `heap`, `max_heap`, `type` of `__init__`. -/
structure BinaryHeap where
  heap : List PyVal
  max_heap : Bool
  type : Option PyType
deriving DecidableEq

/-- `__init__(max_heap, elem_type)`: rejects an `elem_type` outside
`COMPARABLE_TYPES` (never happens for the categories we model). -/
def BinaryHeap.init (max_heap : Bool) (elem_type : Option PyType) :
    Except PyErr BinaryHeap :=
  match elem_type with
  | some t =>
    if COMPARABLE_TYPES.contains t then .ok ⟨[], max_heap, some t⟩
    else .error .typeError
  | none => .ok ⟨[], max_heap, none⟩

/-- `size(self)`. -/
def BinaryHeap.size (h : BinaryHeap) : Nat := h.heap.length

/-- `is_empty(self)`. -/
def BinaryHeap.is_empty (h : BinaryHeap) : Bool := h.size == 0

/-- `_is_valid_type(self, elem)`. -/
def BinaryHeap.is_valid_type (h : BinaryHeap) (elem : PyVal) : Bool :=
  if (h.type = none ∧ ¬ isinstanceComparable elem = true)
      ∨ (h.type ≠ none ∧ h.type ≠ some (pyType elem)) then
    false
  else
    true

/-- `peek(self)`: `return self.heap[0]` — raises IndexError on an empty
list, returns the root otherwise. -/
def BinaryHeap.peek (h : BinaryHeap) : Except PyErr PyVal :=
  match h.heap with
  | [] => .error .indexError
  | x :: _ => .ok x

/-- `contains(self, elem)`: `elem in self.heap`. -/
def BinaryHeap.contains (h : BinaryHeap) (elem : PyVal) : Bool :=
  h.heap.any (fun x => pyEq x elem)

/-- `self.heap.index(elem)`: first index whose element equals `elem`
(callers guard with `contains`, so the element is present). -/
def listIndex (l : List PyVal) (elem : PyVal) : Nat :=
  l.findIdx (fun x => pyEq x elem)

/-- The in-place swap `temp = heap[a]; heap[a] = heap[b]; heap[b] = temp`. -/
def listSwap (l : List PyVal) (a b : Nat) : List PyVal :=
  (l.set a (l.getD b dflt)).set b (l.getD a dflt)

/-- `_check_child_invariance(self, i)` on the raw list: raises IndexError
for `i >= size`; else `False` iff an existing child strictly dominates the
element at `i` in the heap ordering (`<` for a max-heap, `>` for a
min-heap), evaluating the left comparison first as the source does; the
comparisons may raise `TypeError`. -/
def check_child_invariance (maxh : Bool) (l : List PyVal) (i : Nat) :
    Except PyErr Bool :=
  if i ≥ l.length then .error .indexError
  else
    match (match l.get? (2 * i + 1) with
           | none => Except.ok false
           | some c => if maxh then pyLt (l.getD i dflt) c
                       else pyGt (l.getD i dflt) c) with
    | .error e => .error e
    | .ok true => .ok false
    | .ok false =>
      match (match l.get? (2 * i + 2) with
             | none => Except.ok false
             | some c => if maxh then pyLt (l.getD i dflt) c
                         else pyGt (l.getD i dflt) c) with
      | .error e => .error e
      | .ok true => .ok false
      | .ok false => .ok true

/-- The `while` loop of `_heapify_up`: while the node has a parent whose
child invariance fails, swap with the parent and continue from it.  The
parent index of `i = 0` is `-1` in Python, ending the loop, so the loop is
guarded by `i = 0` here.  On a raised exception the list mutated so far is
returned alongside the error. -/
def heapify_up_loop (maxh : Bool) (l : List PyVal) (i : Nat) :
    Except PyErr Unit × List PyVal :=
  if hi : i = 0 then (.ok (), l)
  else
    let p := (i - 1) / 2
    match check_child_invariance maxh l p with
    | .error e => (.error e, l)
    | .ok true => (.ok (), l)
    | .ok false => heapify_up_loop maxh (listSwap l p i) p
termination_by i
decreasing_by
  exact Nat.lt_of_le_of_lt (Nat.div_le_self _ _) (Nat.sub_lt (Nat.pos_of_ne_zero hi) one_pos)

/-- `_heapify_up(self, i)`: bounds check, then the sift-up loop. -/
def heapify_up (maxh : Bool) (l : List PyVal) (i : Nat) :
    Except PyErr Unit × List PyVal :=
  if i ≥ l.length then (.error .indexError, l)
  else heapify_up_loop maxh l i

/-- The branch condition of the `_heapify_down` loop:
`(self.max_heap and heap[left_i] >= heap[right_i]) or
(not self.max_heap and heap[left_i] <= heap[right_i])` — `True` selects the
left child for the swap. -/
def prefers_left (maxh : Bool) (a b : PyVal) : Except PyErr Bool :=
  if maxh then pyGe a b else pyLe a b

/-- The `while` loop of `_heapify_down`: while child invariance fails at
`i`, read `heap[left_i]` and `heap[right_i]` (either read raises IndexError
when out of range — the source never checks, which is reachable), pick the
dominant child (`>=` in a max-heap, `<=` prefers the left child) and swap
with it.  Comparisons may raise `TypeError`. -/
def heapify_down_loop (maxh : Bool) (l : List PyVal) (i : Nat) :
    Except PyErr Unit × List PyVal :=
  match check_child_invariance maxh l i with
  | .error e => (.error e, l)
  | .ok true => (.ok (), l)
  | .ok false =>
    if hli : 2 * i + 1 < l.length then
      if hri : 2 * i + 2 < l.length then
        match prefers_left maxh (l.getD (2 * i + 1) dflt) (l.getD (2 * i + 2) dflt) with
        | .error e => (.error e, l)
        | .ok true => heapify_down_loop maxh (listSwap l (2 * i + 1) i) (2 * i + 1)
        | .ok false => heapify_down_loop maxh (listSwap l (2 * i + 2) i) (2 * i + 2)
      else (.error .indexError, l)
    else (.error .indexError, l)
termination_by l.length - i
decreasing_by
  · simp only [listSwap, List.length_set]
    omega
  · simp only [listSwap, List.length_set]
    omega

/-- `_heapify_down(self, i)`: bounds check, then the sift-down loop. -/
def heapify_down (maxh : Bool) (l : List PyVal) (i : Nat) :
    Except PyErr Unit × List PyVal :=
  if i ≥ l.length then (.error .indexError, l)
  else heapify_down_loop maxh l i

/-- `add(self, elem)`: validate, fix the type on first admission, append,
and sift up from the last index when the size exceeds one. -/
def BinaryHeap.add (h : BinaryHeap) (elem : PyVal) :
    Except PyErr Unit × BinaryHeap :=
  if ¬ h.is_valid_type elem then (.error .typeError, h)
  else
    let h1 : BinaryHeap :=
      if h.type = none then { h with type := some (pyType elem) } else h
    let l := h1.heap ++ [elem]
    if l.length > 1 then
      let r := heapify_up h1.max_heap l (l.length - 1)
      (r.1, { h1 with heap := r.2 })
    else (.ok (), { h1 with heap := l })

/-- `poll(self)`: on a non-empty heap, capture the root, pop the last
element and write it at index 0 — which raises IndexError when the popped
list is empty (the source writes `self.heap[0] = self.heap.pop()`) — then
sift down from the root. -/
def BinaryHeap.poll (h : BinaryHeap) :
    Except PyErr (Option PyVal) × BinaryHeap :=
  if h.size = 0 then (.ok none, h)
  else
    let root := h.heap.getD 0 dflt
    let x := (h.heap.getLast?).getD dflt
    let popped := h.heap.dropLast
    if 0 < popped.length then
      let r := heapify_down h.max_heap (popped.set 0 x) 0
      match r.1 with
      | .error e => (.error e, { h with heap := r.2 })
      | .ok _ => (.ok (some root), { h with heap := r.2 })
    else (.error .indexError, { h with heap := popped })

/-- `remove(self, elem)`: `None` when absent; else find the first equal
index `i`, pop the last element and write it at `i` — an IndexError when
`i` is the last index, since the list already shrank — then sift down from
`i` and return the argument. -/
def BinaryHeap.remove (h : BinaryHeap) (elem : PyVal) :
    Except PyErr (Option PyVal) × BinaryHeap :=
  if ¬ h.contains elem then (.ok none, h)
  else
    let i := listIndex h.heap elem
    let x := (h.heap.getLast?).getD dflt
    let popped := h.heap.dropLast
    if i < popped.length then
      let r := heapify_down h.max_heap (popped.set i x) i
      match r.1 with
      | .error e => (.error e, { h with heap := r.2 })
      | .ok _ => (.ok (some elem), { h with heap := r.2 })
    else (.error .indexError, { h with heap := popped })

/-- `replace(self, new_root)`: on a non-empty heap, overwrite the root with
`new_root` without any validation and sift down, returning the old root. -/
def BinaryHeap.replace (h : BinaryHeap) (new_root : PyVal) :
    Except PyErr (Option PyVal) × BinaryHeap :=
  if h.is_empty then (.ok none, h)
  else
    let to_return := h.heap.getD 0 dflt
    let r := heapify_down h.max_heap (h.heap.set 0 new_root) 0
    match r.1 with
    | .error e => (.error e, { h with heap := r.2 })
    | .ok _ => (.ok (some to_return), { h with heap := r.2 })

/-- `update(self, old_elem, new_elem)`: `False` when absent; else overwrite
index `i` with `new_elem` without validation, then compare `new_elem` with
`old_elem` (Python evaluates `new_elem > old_elem` first, which may raise
`TypeError` with the overwrite already done) to choose sift-up or
sift-down, and return `True`. -/
def BinaryHeap.update (h : BinaryHeap) (old_elem new_elem : PyVal) :
    Except PyErr Bool × BinaryHeap :=
  if ¬ h.contains old_elem then (.ok false, h)
  else
    let i := listIndex h.heap old_elem
    let l := h.heap.set i new_elem
    match pyGt new_elem old_elem with
    | .error e => (.error e, { h with heap := l })
    | .ok gt =>
      if gt && h.max_heap then
        let r := heapify_up h.max_heap l i
        (r.1.map (fun _ => true), { h with heap := r.2 })
      else
        match pyLt new_elem old_elem with
        | .error e => (.error e, { h with heap := l })
        | .ok lt =>
          if lt && ! h.max_heap then
            let r := heapify_up h.max_heap l i
            (r.1.map (fun _ => true), { h with heap := r.2 })
          else
            let r := heapify_down h.max_heap l i
            (r.1.map (fun _ => true), { h with heap := r.2 })

/-- `clear(self)`: `self.heap = []`; `max_heap` and `type` are untouched. -/
def BinaryHeap.clear (h : BinaryHeap) : BinaryHeap := { h with heap := [] }

/-- The validation loop of `build_heap`: reject an element failing
`_is_valid_type`, reject an element whose category differs from the batch
category `potential_type` fixed by the first element; no mutation. -/
def validate_batch (h : BinaryHeap) (potential_type : Option PyType) :
    List PyVal → Except PyErr Unit
  | [] => .ok ()
  | e :: rest =>
    if ¬ h.is_valid_type e then .error .typeError
    else if potential_type ≠ none ∧ potential_type ≠ some (pyType e) then
      .error .typeError
    else if potential_type = none then validate_batch h (some (pyType e)) rest
    else validate_batch h potential_type rest

/-- The insertion loop of `build_heap`: `self.add(elem)` for each element
in order; a raised exception aborts the loop with the state reached. -/
def add_all (h : BinaryHeap) : List PyVal → Except PyErr Unit × BinaryHeap
  | [] => (.ok (), h)
  | e :: rest =>
    let r := h.add e
    match r.1 with
    | .error err => (.error err, r.2)
    | .ok _ => add_all r.2 rest

/-- `build_heap(self, elements)`: the `isinstance(elements, list)` guard
always passes here since the argument is a list; validate the whole batch
first, then add the elements one by one. -/
def BinaryHeap.build_heap (h : BinaryHeap) (elements : List PyVal) :
    Except PyErr Unit × BinaryHeap :=
  match validate_batch h none elements with
  | .error e => (.error e, h)
  | .ok _ => add_all h elements


theorem pyLt_vint (a b : Int) : pyLt (.vint a) (.vint b) = .ok (decide (a < b)) := by
  simp [pyLt, toRatNum]

theorem pyGt_vint (a b : Int) : pyGt (.vint a) (.vint b) = .ok (decide (b < a)) := by
  simp [pyGt, pyLt, toRatNum]

theorem pyGe_vint (a b : Int) : pyGe (.vint a) (.vint b) = .ok (! decide (a < b)) := by
  simp [pyGe, pyLt, toRatNum, Except.map]

theorem pyLe_vint (a b : Int) : pyLe (.vint a) (.vint b) = .ok (! decide (b < a)) := by
  simp [pyLe, pyLt, toRatNum, Except.map]

theorem pyEq_vint (a b : Int) : pyEq (.vint a) (.vint b) = decide (a = b) := by
  simp [pyEq, toComplexNum]

theorem listSwap_mem {l : List PyVal} {a b : Nat} (ha : a < l.length) (hb : b < l.length)
    {v : PyVal} (hv : v ∈ listSwap l a b) : v ∈ l := by
  unfold listSwap at hv
  rcases List.mem_or_eq_of_mem_set hv with hv1 | hv1
  · rcases List.mem_or_eq_of_mem_set hv1 with hv2 | hv2
    · exact hv2
    · rw [hv2, List.getD_eq_getElem l dflt hb]
      exact List.getElem_mem hb
  · rw [hv1, List.getD_eq_getElem l dflt ha]
    exact List.getElem_mem ha

theorem check_lt_of_ok {maxh : Bool} {l : List PyVal} {i : Nat} {b : Bool}
    (h : check_child_invariance maxh l i = .ok b) : i < l.length := by
  by_contra hge
  unfold check_child_invariance at h
  rw [if_pos (Nat.le_of_not_lt hge)] at h
  exact Except.noConfusion h

theorem listSwap_length (l : List PyVal) (a b : Nat) :
    (listSwap l a b).length = l.length := by
  simp [listSwap, List.length_set]

theorem heapify_up_loop_mem (maxh : Bool) (l : List PyVal) (i : Nat) :
    i < l.length → ∀ v ∈ (heapify_up_loop maxh l i).2, v ∈ l := by
  refine heapify_up_loop.induct maxh
    (motive := fun l i => i < l.length → ∀ v ∈ (heapify_up_loop maxh l i).2, v ∈ l)
    ?_ ?_ ?_ ?_ l i
  · intro l _ v hv
    rw [heapify_up_loop] at hv
    simpa using hv
  · intro l i hzero p e hc _ v hv
    rw [heapify_up_loop] at hv
    simp only [dif_neg hzero, hc] at hv
    exact hv
  · intro l i hzero p hc _ v hv
    rw [heapify_up_loop] at hv
    simp only [dif_neg hzero, hc] at hv
    exact hv
  · intro l i hzero p hc ih hi v hv
    rw [heapify_up_loop] at hv
    simp only [dif_neg hzero, hc] at hv
    have hp : p < l.length := check_lt_of_ok hc
    have hi2 : p < (listSwap l p i).length := by rw [listSwap_length]; exact hp
    exact listSwap_mem hp hi (ih hi2 v hv)

theorem heapify_down_loop_mem (maxh : Bool) (l : List PyVal) (i : Nat) :
    ∀ v ∈ (heapify_down_loop maxh l i).2, v ∈ l := by
  refine heapify_down_loop.induct maxh
    (motive := fun l i => ∀ v ∈ (heapify_down_loop maxh l i).2, v ∈ l)
    ?_ ?_ ?_ ?_ ?_ ?_ ?_ l i
  · intro l i e hc v hv
    rw [heapify_down_loop] at hv
    simp only [hc] at hv
    exact hv
  · intro l i hc v hv
    rw [heapify_down_loop] at hv
    simp only [hc] at hv
    exact hv
  · intro l i hc hli hri e hcmp v hv
    rw [heapify_down_loop] at hv
    simp only [hc, dif_pos hli, dif_pos hri, hcmp] at hv
    exact hv
  · intro l i hc hli hri hcmp ih v hv
    rw [heapify_down_loop] at hv
    simp only [hc, dif_pos hli, dif_pos hri, hcmp] at hv
    exact listSwap_mem hli (check_lt_of_ok hc) (ih v hv)
  · intro l i hc hli hri hcmp ih v hv
    rw [heapify_down_loop] at hv
    simp only [hc, dif_pos hli, dif_pos hri, hcmp] at hv
    exact listSwap_mem hri (check_lt_of_ok hc) (ih v hv)
  · intro l i hc hli hri v hv
    rw [heapify_down_loop] at hv
    simp only [hc, dif_pos hli, dif_neg hri] at hv
    exact hv
  · intro l i hc hli v hv
    rw [heapify_down_loop] at hv
    simp only [hc, dif_neg hli] at hv
    exact hv

theorem heapify_up_mem (maxh : Bool) (l : List PyVal) (i : Nat) :
    ∀ v ∈ (heapify_up maxh l i).2, v ∈ l := by
  unfold heapify_up
  by_cases hge : i ≥ l.length
  · rw [if_pos hge]
    exact fun v hv => hv
  · rw [if_neg hge]
    exact heapify_up_loop_mem maxh l i (Nat.lt_of_not_le hge)

theorem heapify_down_mem (maxh : Bool) (l : List PyVal) (i : Nat) :
    ∀ v ∈ (heapify_down maxh l i).2, v ∈ l := by
  unfold heapify_down
  by_cases hge : i ≥ l.length
  · rw [if_pos hge]
    exact fun v hv => hv
  · rw [if_neg hge]
    exact heapify_down_loop_mem maxh l i


/-- The type-homogeneity invariant of the spec: every stored element
belongs to the fixed category recorded in `type`. -/
def homogeneous (h : BinaryHeap) : Prop :=
  ∀ v ∈ h.heap, h.type = some (pyType v)

theorem valid_type_spec {h : BinaryHeap} {elem : PyVal}
    (hv : h.is_valid_type elem = true) :
    h.type = none ∨ h.type = some (pyType elem) := by
  unfold BinaryHeap.is_valid_type at hv
  by_cases hn : h.type = none
  · exact Or.inl hn
  · right
    by_contra hne
    rw [if_pos (Or.inr ⟨hn, hne⟩)] at hv
    exact Bool.noConfusion hv

theorem homog_nil_of_none {h : BinaryHeap} (hh : homogeneous h)
    (hn : h.type = none) : h.heap = [] := by
  refine List.eq_nil_iff_forall_not_mem.mpr (fun x hx => ?_)
  have := hh x hx
  rw [hn] at this
  exact Option.noConfusion this

theorem getLast_getD_mem {l : List PyVal} (hne : l ≠ []) :
    l.getLast?.getD dflt ∈ l := by
  rw [List.getLast?_eq_getLast l hne]
  exact List.getLast_mem hne

theorem add_preserves_homogeneous (h : BinaryHeap) (hh : homogeneous h) (v : PyVal) :
    homogeneous (h.add v).2 := by
  unfold BinaryHeap.add
  by_cases hvalid : h.is_valid_type v = true
  · rcases valid_type_spec hvalid with hn | ht
    · have hnil : h.heap = [] := homog_nil_of_none hh hn
      simp only [hvalid, not_true, if_neg, hn, hnil]
      intro x hx
      simp only [if_true] at hx
      simp at hx
      simp [hx]
    · simp only [hvalid, not_true, if_neg]
      have hone : ¬ h.type = none := by rw [ht]; exact fun hc => Option.noConfusion hc
      rw [if_neg hone]
      have hall : ∀ x ∈ h.heap ++ [v], h.type = some (pyType x) := by
        intro x hx
        rcases List.mem_append.mp hx with hx | hx
        · exact hh x hx
        · simp at hx
          rw [hx, ht]
      by_cases hlen : (h.heap ++ [v]).length > 1
      · rw [if_pos hlen]
        intro x hx
        exact hall x (heapify_up_mem h.max_heap (h.heap ++ [v]) ((h.heap ++ [v]).length - 1) x hx)
      · rw [if_neg hlen]
        exact hall
  · rw [if_pos (by simpa using hvalid)]
    exact hh


theorem poll_preserves_homogeneous (h : BinaryHeap) (hh : homogeneous h) :
    homogeneous h.poll.2 := by
  unfold BinaryHeap.poll
  by_cases hsz : h.size = 0
  · rw [if_pos hsz]
    exact hh
  · rw [if_neg hsz]
    have hne : h.heap ≠ [] := by
      intro hc
      exact hsz (by simp [BinaryHeap.size, hc])
    have hx : h.heap.getLast?.getD dflt ∈ h.heap := getLast_getD_mem hne
    have hsub : ∀ v ∈ h.heap.dropLast.set 0 (h.heap.getLast?.getD dflt), v ∈ h.heap := by
      intro v hv
      rcases List.mem_or_eq_of_mem_set hv with hv | hv
      · exact List.mem_of_mem_dropLast hv
      · rw [hv]; exact hx
    dsimp only
    split
    · rcases hE : (heapify_down h.max_heap (h.heap.dropLast.set 0 (h.heap.getLast?.getD dflt)) 0).1
        with e | u <;>
      · simp only [hE]
        intro v hv
        exact hh v (hsub v (heapify_down_mem _ _ _ v hv))
    · intro v hv
      exact hh v (List.mem_of_mem_dropLast hv)

theorem remove_preserves_homogeneous (h : BinaryHeap) (hh : homogeneous h) (elem : PyVal) :
    homogeneous (h.remove elem).2 := by
  unfold BinaryHeap.remove
  by_cases hc : h.contains elem = true
  · rw [if_neg (by simpa using hc)]
    have hne : h.heap ≠ [] := by
      intro hnil
      unfold BinaryHeap.contains at hc
      rw [hnil] at hc
      simp at hc
    have hx : h.heap.getLast?.getD dflt ∈ h.heap := getLast_getD_mem hne
    have hsub : ∀ v ∈ h.heap.dropLast.set (listIndex h.heap elem) (h.heap.getLast?.getD dflt),
        v ∈ h.heap := by
      intro v hv
      rcases List.mem_or_eq_of_mem_set hv with hv | hv
      · exact List.mem_of_mem_dropLast hv
      · rw [hv]; exact hx
    dsimp only
    split
    · rcases hE : (heapify_down h.max_heap
          (h.heap.dropLast.set (listIndex h.heap elem) (h.heap.getLast?.getD dflt))
          (listIndex h.heap elem)).1 with e | u <;>
      · simp only [hE]
        intro v hv
        exact hh v (hsub v (heapify_down_mem _ _ _ v hv))
    · intro v hv
      exact hh v (List.mem_of_mem_dropLast hv)
  · rw [if_pos (by simpa using hc)]
    exact hh

theorem clear_preserves_homogeneous (h : BinaryHeap) :
    homogeneous h.clear := by
  intro v hv
  exact absurd hv (List.not_mem_nil v)

theorem add_all_preserves_homogeneous (l : List PyVal) :
    ∀ h : BinaryHeap, homogeneous h → homogeneous (add_all h l).2 := by
  induction l with
  | nil => intro h hh; exact hh
  | cons e rest ih =>
    intro h hh
    unfold add_all
    dsimp only
    split
    · exact add_preserves_homogeneous h hh e
    · exact ih _ (add_preserves_homogeneous h hh e)

theorem build_heap_preserves_homogeneous (h : BinaryHeap) (hh : homogeneous h)
    (elements : List PyVal) : homogeneous (h.build_heap elements).2 := by
  unfold BinaryHeap.build_heap
  split
  · exact hh
  · exact add_all_preserves_homogeneous elements h hh


theorem validate_batch_ok_some (h : BinaryHeap) (t : PyType) :
    ∀ l : List PyVal, validate_batch h (some t) l = .ok () → ∀ e ∈ l, pyType e = t := by
  intro l
  induction l with
  | nil =>
    intro _ e he
    exact absurd he (List.not_mem_nil e)
  | cons x rest ih =>
    intro hok e he
    unfold validate_batch at hok
    by_cases hA : h.is_valid_type x = true
    · rw [if_neg (not_not_intro hA)] at hok
      by_cases hB : pyType x = t
      · rw [if_neg (fun hc => hc.2 (by rw [hB]))] at hok
        rw [if_neg (fun hc => Option.noConfusion hc)] at hok
        rcases List.mem_cons.mp he with he | he
        · rw [he]
          exact hB
        · exact ih hok e he
      · rw [if_pos ⟨fun hc => Option.noConfusion hc,
          fun hc => hB (Option.some_injective _ hc).symm⟩] at hok
        exact Except.noConfusion hok
    · rw [if_pos hA] at hok
      exact Except.noConfusion hok

theorem validate_batch_ok_none (h : BinaryHeap) (l : List PyVal)
    (hok : validate_batch h none l = .ok ()) :
    ∀ a ∈ l, ∀ b ∈ l, pyType a = pyType b := by
  cases l with
  | nil =>
    intro a ha
    exact absurd ha (List.not_mem_nil a)
  | cons x rest =>
    unfold validate_batch at hok
    by_cases hA : h.is_valid_type x = true
    · rw [if_neg (not_not_intro hA)] at hok
      rw [if_neg (fun hc => hc.1 rfl)] at hok
      rw [if_pos rfl] at hok
      have hall : ∀ e ∈ x :: rest, pyType e = pyType x := by
        intro e he
        rcases List.mem_cons.mp he with he | he
        · rw [he]
        · exact validate_batch_ok_some h (pyType x) rest hok e he
      intro a ha b hb
      rw [hall a ha, hall b hb]
    · rw [if_pos hA] at hok
      exact Except.noConfusion hok

theorem validate_batch_error_kind (h : BinaryHeap) :
    ∀ (l : List PyVal) (pt : Option PyType) (e : PyErr),
      validate_batch h pt l = .error e → e = .typeError := by
  intro l
  induction l with
  | nil =>
    intro pt e he
    exact Except.noConfusion he
  | cons x rest ih =>
    intro pt e he
    unfold validate_batch at he
    split at he
    · cases he
      rfl
    · split at he
      · cases he
        rfl
      · split at he
        · exact ih _ e he
        · exact ih _ e he


/-- C1: the spec demands that every sequence of valid add/poll/remove/replace/
update calls returns normally with the heap-order and completeness invariants
restored.  The code refutes this: on a fresh max-heap, add(10), add(12), add(7)
— the example from the docstring of poll — are valid calls, yet poll() raises
IndexError, because after moving the last element to the root, _heapify_down
reads heap[right_i] for a node that has only a left child. -/
theorem valid_call_sequence_raises_index_error :
    BinaryHeap.add ⟨[], true, none⟩ (.vint 10) = (.ok (), ⟨[.vint 10], true, some .tint⟩)
    ∧ BinaryHeap.add ⟨[.vint 10], true, some .tint⟩ (.vint 12)
      = (.ok (), ⟨[.vint 12, .vint 10], true, some .tint⟩)
    ∧ BinaryHeap.add ⟨[.vint 12, .vint 10], true, some .tint⟩ (.vint 7)
      = (.ok (), ⟨[.vint 12, .vint 10, .vint 7], true, some .tint⟩)
    ∧ BinaryHeap.poll ⟨[.vint 12, .vint 10, .vint 7], true, some .tint⟩
      = (.error .indexError, ⟨[.vint 7, .vint 10], true, some .tint⟩) := by
  refine ⟨?_, ?_, ?_, ?_⟩ <;>
    simp [BinaryHeap.add, BinaryHeap.poll, BinaryHeap.size, BinaryHeap.is_valid_type,
      isinstanceComparable, COMPARABLE_TYPES, pyType, heapify_up, heapify_up_loop,
      heapify_down, heapify_down_loop, check_child_invariance, prefers_left,
      pyLt_vint, pyGt_vint, pyLe_vint, pyGe_vint, listSwap, dflt]

/-- C2: the spec demands that a max-heap populated with N numeric values yields
them in non-increasing order over N poll() calls.  The code refutes this for the
multiset 3, 2, 1: the three adds succeed, but already the first poll() raises
IndexError in _heapify_down (missing right child read) instead of returning 3,
2, 1 in order. -/
theorem extraction_order_raises_index_error :
    BinaryHeap.add ⟨[], true, none⟩ (.vint 3) = (.ok (), ⟨[.vint 3], true, some .tint⟩)
    ∧ BinaryHeap.add ⟨[.vint 3], true, some .tint⟩ (.vint 2)
      = (.ok (), ⟨[.vint 3, .vint 2], true, some .tint⟩)
    ∧ BinaryHeap.add ⟨[.vint 3, .vint 2], true, some .tint⟩ (.vint 1)
      = (.ok (), ⟨[.vint 3, .vint 2, .vint 1], true, some .tint⟩)
    ∧ BinaryHeap.poll ⟨[.vint 3, .vint 2, .vint 1], true, some .tint⟩
      = (.error .indexError, ⟨[.vint 1, .vint 2], true, some .tint⟩) := by
  refine ⟨?_, ?_, ?_, ?_⟩ <;>
    simp [BinaryHeap.add, BinaryHeap.poll, BinaryHeap.size, BinaryHeap.is_valid_type,
      isinstanceComparable, COMPARABLE_TYPES, pyType, heapify_up, heapify_up_loop,
      heapify_down, heapify_down_loop, check_child_invariance, prefers_left,
      pyLt_vint, pyGt_vint, pyLe_vint, pyGe_vint, listSwap, dflt]

/-- C3: the spec demands that poll() on a one-element heap returns that element
and leaves the heap empty.  The code refutes this: `self.heap[0] =
self.heap.pop()` first pops the only element, leaving the list empty, and the
assignment to index 0 of the now-empty list raises IndexError; the element is
lost and nothing is returned. -/
theorem poll_singleton_raises_index_error :
    BinaryHeap.poll ⟨[.vint 1], true, some .tint⟩
      = (.error .indexError, ⟨[], true, some .tint⟩) := by
  simp [BinaryHeap.poll, BinaryHeap.size]

/-- C4: the spec demands that remove(value) with the only equality match at the
last index returns the value and drops the last slot.  The code refutes this:
`self.heap[i] = self.heap.pop()` pops the last element first, so the assignment
target index i equals the popped length and raises IndexError; on the max-heap
[3, 1], remove(1) raises instead of returning 1, although the heap does end up
as [3]. -/
theorem remove_last_index_raises_index_error :
    BinaryHeap.remove ⟨[.vint 3, .vint 1], true, some .tint⟩ (.vint 1)
      = (.error .indexError, ⟨[.vint 3], true, some .tint⟩) := by
  simp [BinaryHeap.remove, BinaryHeap.contains, listIndex, List.findIdx_cons,
    pyEq_vint, dflt]

/-- C5: the spec demands that a call which raises an error leaves the element
sequence exactly as it was (atomicity).  The code refutes this: poll() on the
one-element min-heap [2] raises IndexError, yet the element sequence has
changed from [2] to [] — the pop() mutation had already happened when the
write `self.heap[0] = ...` raised. -/
theorem poll_error_is_not_atomic :
    BinaryHeap.poll ⟨[.vint 2], false, some .tint⟩
      = (.error .indexError, ⟨[], false, some .tint⟩) := by
  simp [BinaryHeap.poll, BinaryHeap.size]

/-- C6 counterexample: the claim extends type-homogeneity over replace, but
replace performs no validation: on the int heap [5], replace("x") returns
normally (returning 5) and leaves the string "x" inside a heap whose fixed
element kind is int, so homogeneity is broken at that concrete input. -/
theorem replace_installs_foreign_category :
    BinaryHeap.replace ⟨[.vint 5], true, some .tint⟩ (.vstr "x")
      = (.ok (some (.vint 5)), ⟨[.vstr "x"], true, some .tint⟩)
    ∧ ¬ homogeneous ⟨[.vstr "x"], true, some .tint⟩ := by
  constructor
  · simp [BinaryHeap.replace, BinaryHeap.is_empty, BinaryHeap.size, heapify_down,
      heapify_down_loop, check_child_invariance, dflt]
  · intro hcon
    have hx := hcon (.vstr "x") (by simp)
    simp [pyType] at hx

/-- C6 amended: type-homogeneity is an invariant of add, poll, remove, clear
and build_heap; replace and update are excluded because they install the new
value without any validation and can break it. -/
theorem homogeneity_preserved_by_validated_mutators (h : BinaryHeap)
    (hh : homogeneous h) :
    (∀ v, homogeneous (h.add v).2)
    ∧ homogeneous h.poll.2
    ∧ (∀ v, homogeneous (h.remove v).2)
    ∧ homogeneous h.clear
    ∧ (∀ l, homogeneous (h.build_heap l).2) :=
  ⟨fun v => add_preserves_homogeneous h hh v,
   poll_preserves_homogeneous h hh,
   fun v => remove_preserves_homogeneous h hh v,
   clear_preserves_homogeneous h,
   fun l => build_heap_preserves_homogeneous h hh l⟩

/-- C6 amended, witness: the theorem applied to the concrete homogeneous int
heap [1]. -/
theorem homogeneity_preserved_by_validated_mutators_witness :
    homogeneous ⟨[.vint 1], true, some .tint⟩
    ∧ homogeneous (BinaryHeap.poll ⟨[.vint 1], true, some .tint⟩).2 := by
  have hhom : homogeneous ⟨[.vint 1], true, some .tint⟩ := by
    intro v hv
    simp at hv
    rw [hv]
    rfl
  exact ⟨hhom, (homogeneity_preserved_by_validated_mutators _ hhom).2.1⟩

/-- C7: the spec lists complex as a supported comparable category with a
well-defined heap-order comparison.  The code refutes this: the first complex
add succeeds and fixes the element kind to complex, but the second add raises
TypeError, because _heapify_up compares the two values with < and the complex
category supports no order comparison — and the invalid element is even left
appended. -/
theorem second_complex_add_raises_type_error :
    BinaryHeap.add ⟨[], true, none⟩ (.vcomplex 1 0)
      = (.ok (), ⟨[.vcomplex 1 0], true, some .tcomplex⟩)
    ∧ BinaryHeap.add ⟨[.vcomplex 1 0], true, some .tcomplex⟩ (.vcomplex 2 0)
      = (.error .typeError, ⟨[.vcomplex 1 0, .vcomplex 2 0], true, some .tcomplex⟩) := by
  constructor <;>
    simp [BinaryHeap.add, BinaryHeap.is_valid_type, isinstanceComparable,
      COMPARABLE_TYPES, pyType, heapify_up, heapify_up_loop, check_child_invariance,
      pyLt, toRatNum, listSwap, dflt]

/-- C8: build_heap validates the whole input batch before any mutation — an
input list containing two elements of different categories always raises
TypeError and leaves the heap (elements and element kind) exactly as it was. -/
theorem build_heap_mixed_batch_rejected (h : BinaryHeap) (l : List PyVal)
    (a b : PyVal) (ha : a ∈ l) (hb : b ∈ l) (hab : pyType a ≠ pyType b) :
    h.build_heap l = (.error .typeError, h) := by
  unfold BinaryHeap.build_heap
  rcases hval : validate_batch h none l with e | u
  · have he : e = .typeError := validate_batch_error_kind h l none e hval
    rw [he]
  · cases u
    exact absurd (validate_batch_ok_none h l hval a ha b hb) hab

/-- C8 witness: the batch [1, "x", 3] on the empty heap. -/
theorem build_heap_mixed_batch_rejected_witness :
    (PyVal.vint 1) ∈ [PyVal.vint 1, PyVal.vstr "x", PyVal.vint 3]
    ∧ (PyVal.vstr "x") ∈ [PyVal.vint 1, PyVal.vstr "x", PyVal.vint 3]
    ∧ pyType (.vint 1) ≠ pyType (.vstr "x")
    ∧ BinaryHeap.build_heap ⟨[], true, none⟩ [.vint 1, .vstr "x", .vint 3]
      = (.error .typeError, ⟨[], true, none⟩) :=
  ⟨by simp, by simp, by decide,
   build_heap_mixed_batch_rejected ⟨[], true, none⟩ [.vint 1, .vstr "x", .vint 3]
     (.vint 1) (.vstr "x") (by simp) (by simp) (by decide)⟩

/-- C9: clear() resets the element sequence to empty and retains both the
max/min ordering flag and the fixed element kind. -/
theorem clear_resets_elements_retains_config (h : BinaryHeap) :
    h.clear.heap = [] ∧ h.clear.max_heap = h.max_heap ∧ h.clear.type = h.type :=
  ⟨rfl, rfl, rfl⟩

/-- C10: peek() on an empty heap raises IndexError (bare indexing of an empty
list) rather than returning an absence signal. -/
theorem peek_empty_heap_raises_index_error (h : BinaryHeap) (hemp : h.heap = []) :
    h.peek = .error .indexError := by
  unfold BinaryHeap.peek
  rw [hemp]

/-- C10 witness: peek on the concrete empty heap. -/
theorem peek_empty_heap_raises_index_error_witness :
    BinaryHeap.peek ⟨[], true, none⟩ = .error .indexError :=
  peek_empty_heap_raises_index_error ⟨[], true, none⟩ rfl
